import Mathlib

/-!
Shallow embedding of `src/preprocess.py` (EEG music challenge baselines,
preprocessing stage) and verification of its specification claims.

Matrices are channels × time, modelled as `List (List ℚ)` (one inner list per
channel row, as produced by `mne ... .get_data()`).  NaN values produced by the
thresholding step are modelled as `none` in `List (Option ℚ)` rows; the special
IEEE float values produced by numpy division are modelled by `NpVal`.
-/

/-- The absolute amplitude threshold `1e2` of
`raw_data[abs(raw_data) > 1e2] = np.nan` (preprocess.py line 37). -/
def threshold : ℚ := 100

/-- The masking step of `interpolate`: every sample whose absolute value
exceeds the threshold is replaced by NaN (`none`). -/
def maskRow (xs : List ℚ) : List (Option ℚ) :=
  xs.map (fun x => if threshold < |x| then none else some x)

/-- The NaN positions of one channel row, in ascending time order.
`np.where(np.isnan(raw_data))` returns indices in row-major order, i.e. all of
channel 0's NaN time indices in ascending order, then channel 1's, and so on;
since the repair loop only ever reads and writes inside the current channel's
row, processing the matrix channel by channel is equivalent. -/
def nanPositions (r : List (Option ℚ)) : List Nat :=
  (List.range r.length).filter (fun t => (r.getD t (some 0)).isNone)

/-- NaN-propagating average `(before + after) / 2` of two samples. -/
def avg2 : Option ℚ → Option ℚ → Option ℚ
  | some a, some b => some ((a + b) / 2)
  | _, _ => none

/-- One iteration of the repair loop of `interpolate` (preprocess.py lines
44-52) at time index `t`.  The source reads
`before = raw_data[channel, timepoint-1]` and then — line 49, despite its
comment saying "value after the point" — reads the SAME index `timepoint-1`
again for `after`, and writes their average at `t`.  Python's negative
indexing makes `timepoint-1` wrap to the last sample when `t = 0`, which the
index `(t + r.length - 1) % r.length` reproduces. -/
def repairAt (r : List (Option ℚ)) (t : Nat) : List (Option ℚ) :=
  let prev := r.getD ((t + r.length - 1) % r.length) none
  r.set t (avg2 prev prev)

/-- `interpolate` restricted to one channel row: mask the out-of-threshold
samples, then run the in-place repair loop over the NaN positions (computed
once, before any repair, exactly as `np.where` is called once). -/
def interpolateRow (xs : List ℚ) : List (Option ℚ) :=
  (nanPositions (maskRow xs)).foldl repairAt (maskRow xs)

/-- Strip the `Option` layer from a fully repaired row (meaningful only when
no `none` remains, which `interpolate` checks before returning). -/
def unmaskRow (r : List (Option ℚ)) : List ℚ :=
  r.map (fun o => o.getD 0)

/-- The exception raised by `interpolate` when NaNs remain after the repair
loop ("Data still contain Nans after interpolation"); the spec calls it
`ResidualMissingData`. -/
inductive ResidualNan
  | residualNan
deriving DecidableEq

/-- `interpolate(raw_data)` (preprocess.py lines 34-60): threshold-mask,
repair each NaN in row-major index order, then raise `ResidualNan` if any NaN
remains, else return the repaired matrix. -/
def interpolate (m : List (List ℚ)) : Except ResidualNan (List (List ℚ)) :=
  let rows := m.map interpolateRow
  if rows.all (fun r => r.all Option.isSome)
  then .ok (rows.map unmaskRow)
  else .error .residualNan

/-- The 32 canonical channel names of `open_and_interpolate` (preprocess.py
lines 71-73), in source order. -/
def CH_NAMES : List String :=
  ["Cz", "Fz", "Fp1", "F7", "F3", "FC1", "C3", "FC5", "FT9", "T7", "CP5",
   "CP1", "P3", "P7", "PO9", "O1", "Pz", "Oz", "O2", "PO10", "P8", "P4",
   "CP2", "CP6", "T8", "FT10", "FC6", "C4", "FC2", "F4", "F8", "Fp2"]

/-- A loaded raw recording: the file's channels in the file's own order, each
a name paired with its row of samples. -/
abbrev FileData := List (String × List ℚ)

/-- The channel-dropping step of `open_and_interpolate` (lines 76-78):
`drop = [ch for ch in all_ch if ch not in CH_NAMES]` followed by
`raw_data.drop_channels(drop)`.  Dropping removes exactly the non-canonical
channels and keeps the remaining channels in the order they have in the file
(mne's `drop_channels` never reorders). -/
def dropChannels (file : FileData) : FileData :=
  file.filter (fun p => decide (p.1 ∈ CH_NAMES))

/-- `open_and_interpolate(file)` with `split_bands=False` (preprocess.py lines
70-101): drop non-canonical channels, interpolate, and on `ResidualNan`
return the `None` sentinel (after logging the file name).  The subsequent
`mne` bandpass `filter(1., 50.)` is external library code and is abstracted
as the parameter `filt`. -/
def open_and_interpolate (filt : List (List ℚ) → List (List ℚ))
    (file : FileData) : Option (List (List ℚ)) :=
  match interpolate ((dropChannels file).map Prod.snd) with
  | .error _ => none
  | .ok m => some (filt m)

/-- The `ValueError`s `np.concatenate` can raise on the list `tmp` built by
`get_stats`: an empty input list ("need at least one array to concatenate"),
a `None` entry ("zero-dimensional arrays cannot be concatenated"), or
mismatched channel counts.  The spec's `InsufficientData` error names the
first two. -/
inductive ConcatError
  | needAtLeastOneArray
  | zeroDimensional
  | shapeMismatch
deriving DecidableEq

/-- `np.concatenate(tmp, axis=1)` on the list of per-file results, which may
contain the `None` sentinel for failed loads since `get_stats` appends every
result unconditionally. -/
def npConcat (tmp : List (Option (List (List ℚ)))) :
    Except ConcatError (List (List ℚ)) :=
  if tmp.isEmpty then .error .needAtLeastOneArray
  else if tmp.any Option.isNone then .error .zeroDimensional
  else
    let ms := tmp.reduceOption
    let C := (ms.headD []).length
    if ms.all (fun m => decide (m.length = C)) then
      .ok ((List.range C).map (fun c => (ms.map (fun m => m.getD c [])).flatten))
    else .error .shapeMismatch

/-- Per-channel sample mean (`np.mean(data, axis=1)` for one row). -/
def meanRow (r : List ℚ) : ℚ := r.sum / r.length

/-- Per-channel population variance.  `np.std(data, axis=1)` is the square
root of this (ddof = 0); no claim depends on the square root itself, so the
statistics are kept exact as the variance. -/
def varRow (r : List ℚ) : ℚ :=
  ((r.map (fun x => (x - meanRow r) ^ 2)).sum) / r.length

/-- `get_stats(file_list)` (preprocess.py lines 103-114), abstracted over the
per-file results of `open_and_interpolate`: every result — including the
`None` sentinel of a failed load — is appended to `tmp` (line 107 appends
unconditionally), the list is concatenated along the time axis, and the
per-channel mean and variance are returned. -/
def get_stats (results : List (Option (List (List ℚ)))) :
    Except ConcatError (List ℚ × List ℚ) :=
  match npConcat results with
  | .error e => .error e
  | .ok data => .ok (data.map meanRow, data.map varRow)

/-- Modelled from the spec: the spec's version of `get_stats`, which first
discards every recording for which loading failed and concatenates only the
surviving matrices.  Used to compare the source's behaviour with the spec's
words (claim C2). -/
def get_stats_spec (results : List (Option (List (List ℚ)))) :
    Except ConcatError (List ℚ × List ℚ) :=
  get_stats (results.filter Option.isSome)

/-- `z_score(raw_data, mean, std)` (preprocess.py lines 116-117) over exact
arithmetic: `(raw_data - mean[:, np.newaxis]) / std[:, np.newaxis]`,
broadcasting the per-channel mean and std across the time axis. -/
def z_score (m : List (List ℚ)) (mean std : List ℚ) : List (List ℚ) :=
  (m.zip (mean.zip std)).map (fun p => p.1.map (fun x => (x - p.2.1) / p.2.2))

/-- Modelled from the spec: the inverse transform `z * std + mean` of the
spec's Normalizer round-trip claim (C8). -/
def denormalize (z : List (List ℚ)) (mean std : List ℚ) : List (List ℚ) :=
  (z.zip (mean.zip std)).map (fun p => p.1.map (fun x => x * p.2.2 + p.2.1))

/-- An IEEE-754 style value as produced by numpy float operations: a finite
value (kept exact as a rational) or one of the special values. -/
inductive NpVal
  | fin (q : ℚ)
  | inf
  | ninf
  | nan
deriving DecidableEq

/-- Whether an `NpVal` is a finite number. -/
def NpVal.isFinite : NpVal → Bool
  | .fin _ => true
  | _ => false

/-- numpy division of two finite floats: division by zero emits a
`RuntimeWarning` and evaluates to `inf`, `-inf` or `nan` according to the
sign of the numerator — it does not raise an exception. -/
def npDiv (x y : ℚ) : NpVal :=
  if y ≠ 0 then .fin (x / y) else
  if 0 < x then .inf else
  if x < 0 then .ninf else .nan

/-- `z_score` as numpy actually executes it, with no guard on `std`: a zero
std entry makes the whole channel divide by zero, producing special values
instead of raising (claim C4). -/
def z_score_np (m : List (List ℚ)) (mean std : List ℚ) : List (List NpVal) :=
  (m.zip (mean.zip std)).map
    (fun p => p.1.map (fun x => npDiv (x - p.2.1) p.2.2))

/-- Whether an `Except` result is a success. -/
def exceptIsOk {ε α : Type} : Except ε α → Bool
  | .ok _ => true
  | .error _ => false

/-- The per-file loop of `main` (preprocess.py lines 207-223, with
`split_bands = False`): load each file, `continue` past it when the loader
returns the `None` sentinel, otherwise z-score it with the global statistics
and save it.  Returns the list of saved matrices in file order. -/
def processFiles (filt : List (List ℚ) → List (List ℚ))
    (mean std : List ℚ) (files : List FileData) : List (List (List ℚ)) :=
  files.filterMap
    (fun f => (open_and_interpolate filt f).map (fun m => z_score m mean std))

/-- Bool-valued predicate: every sample of the matrix is within the
interpolation threshold. -/
def withinThreshold (m : List (List ℚ)) : Bool :=
  m.all (fun r => r.all (fun x => decide (|x| ≤ threshold)))

/-! ### Helper lemmas -/

lemma maskRow_of_within (xs : List ℚ)
    (h : xs.all (fun x => decide (|x| ≤ threshold)) = true) :
    maskRow xs = xs.map some := by
  rw [List.all_eq_true] at h
  simp only [maskRow]
  apply List.map_congr_left
  intro x hx
  exact if_neg (not_lt.mpr (of_decide_eq_true (h x hx)))

lemma getD_map_some (xs : List ℚ) (d : Option ℚ) (t : ℕ) (ht : t < xs.length) :
    (xs.map some).getD t d = some (xs.getD t 0) := by
  have ht' : t < (xs.map some).length := by simpa using ht
  rw [List.getD_eq_getElem _ _ ht', List.getElem_map, List.getD_eq_getElem _ _ ht]

lemma nanPositions_map_some (xs : List ℚ) : nanPositions (xs.map some) = [] := by
  simp only [nanPositions]
  rw [List.filter_eq_nil_iff]
  intro t ht
  have ht' : t < xs.length := by simpa using List.mem_range.mp ht
  rw [getD_map_some _ _ _ ht']
  simp

lemma interpolateRow_of_within (xs : List ℚ)
    (h : xs.all (fun x => decide (|x| ≤ threshold)) = true) :
    interpolateRow xs = xs.map some := by
  simp only [interpolateRow, maskRow_of_within xs h, nanPositions_map_some,
    List.foldl_nil]

lemma unmaskRow_map_some (xs : List ℚ) : unmaskRow (xs.map some) = xs := by
  simp [unmaskRow, List.map_map, Function.comp_def]

/-- C9: for every matrix in which no sample exceeds the absolute threshold
100.0, `interpolate` is the identity transform: no sample is masked, the
repair loop runs over an empty index list, and the matrix is returned
unchanged. -/
theorem interpolate_id_of_withinThreshold (m : List (List ℚ))
    (h : withinThreshold m = true) : interpolate m = .ok m := by
  rw [withinThreshold, List.all_eq_true] at h
  have hrows : m.map interpolateRow = m.map (fun r => r.map some) :=
    List.map_congr_left fun r hr => interpolateRow_of_within r (h r hr)
  simp only [interpolate, hrows]
  rw [if_pos]
  · congr 1
    rw [List.map_map]
    have hid : ∀ r ∈ m, (unmaskRow ∘ fun r => r.map some) r = id r :=
      fun r _ => unmaskRow_map_some r
    rw [List.map_congr_left hid, List.map_id]
  · rw [List.all_eq_true]
    intro r hr
    rw [List.mem_map] at hr
    obtain ⟨r', _, rfl⟩ := hr
    simp

/-- C9 witness: the within-threshold matrix [[1, -5], [0, 99]] is returned
unchanged. -/
theorem interpolate_id_of_withinThreshold_witness :
    withinThreshold [[1, -5], [0, 99]] = true
    ∧ interpolate [[1, -5], [0, 99]] = .ok [[1, -5], [0, 99]] := by
  have h : withinThreshold [[1, -5], [0, 99]] = true := by
    norm_num [withinThreshold, threshold]
  exact ⟨h, interpolate_id_of_withinThreshold _ h⟩

/-- C8: Normalizer round-trip.  For matching channel counts and an
all-positive std vector, `z_score(m, mean, std) * std + mean` reconstructs
`m` exactly over exact arithmetic. -/
theorem z_score_round_trip (m : List (List ℚ)) (mean std : List ℚ)
    (hm : mean.length = m.length) (hs : std.length = m.length)
    (hpos : std.all (fun s => decide (0 < s)) = true) :
    denormalize (z_score m mean std) mean std = m := by
  induction m generalizing mean std with
  | nil => simp [z_score, denormalize]
  | cons r m ih =>
    cases mean with
    | nil => simp at hm
    | cons mu mean =>
      cases std with
      | nil => simp at hs
      | cons s std =>
        rw [List.all_cons, Bool.and_eq_true] at hpos
        have hs0 : (0 : ℚ) < s := of_decide_eq_true hpos.1
        have hstep : denormalize (z_score (r :: m) (mu :: mean) (s :: std))
            (mu :: mean) (s :: std)
            = ((r.map fun x => (x - mu) / s).map fun x => x * s + mu)
              :: denormalize (z_score m mean std) mean std := rfl
        have hrow : ((r.map fun x => (x - mu) / s).map fun x => x * s + mu) = r := by
          rw [List.map_map]
          have hid : ∀ x ∈ r,
              ((fun x => x * s + mu) ∘ fun x => (x - mu) / s) x = id x := by
            intro x _
            simp only [Function.comp_apply, id_eq,
              div_mul_cancel₀ _ (ne_of_gt hs0)]
            exact sub_add_cancel x mu
          rw [List.map_congr_left hid, List.map_id]
        rw [hstep, hrow, ih mean std (by simpa using hm) (by simpa using hs) hpos.2]

/-- C8 witness: round-trip at m = [[1, 2], [3, 4]], mean = [1, 0],
std = [2, 3]. -/
theorem z_score_round_trip_witness :
    (([1, 0] : List ℚ).length = ([[1, 2], [3, 4]] : List (List ℚ)).length
      ∧ ([2, 3] : List ℚ).length = ([[1, 2], [3, 4]] : List (List ℚ)).length
      ∧ ([2, 3] : List ℚ).all (fun s => decide (0 < s)) = true)
    ∧ denormalize (z_score [[1, 2], [3, 4]] [1, 0] [2, 3]) [1, 0] [2, 3]
        = [[1, 2], [3, 4]] := by
  have h1 : (([1, 0] : List ℚ)).length = ([[1, 2], [3, 4]] : List (List ℚ)).length := rfl
  have h2 : (([2, 3] : List ℚ)).length = ([[1, 2], [3, 4]] : List (List ℚ)).length := rfl
  have h3 : ([2, 3] : List ℚ).all (fun s => decide (0 < s)) = true := by
    norm_num
  exact ⟨⟨h1, h2, h3⟩, z_score_round_trip _ _ _ h1 h2 h3⟩

lemma npDiv_zero_not_finite (x : ℚ) : (npDiv x 0).isFinite = false := by
  unfold npDiv
  rw [if_neg (by simp)]
  by_cases h1 : (0 : ℚ) < x
  · rw [if_pos h1]
    rfl
  · rw [if_neg h1]
    by_cases h2 : x < 0
    · rw [if_pos h2]
      rfl
    · rw [if_neg h2]
      rfl

/-- C4 counterexample: with std = [0.0], `z_score` does not fail with a
division-by-zero error — numpy division by zero only warns — it returns a
matrix, here containing the value `inf` (1.0 / 0.0). -/
theorem z_score_zero_std_counterexample :
    z_score_np [[1]] [0] [0] = [[NpVal.inf]] := by
  norm_num [z_score_np, npDiv]

/-- C4 amended: on a channel whose std entry is 0.0, `z_score` silently
produces only non-finite values (inf, -inf or nan) for that channel instead
of raising an error. -/
theorem z_score_zero_std_not_finite (m : List (List ℚ)) (mean std : List ℚ)
    (c : ℕ) (h : std.getD c 1 = 0) :
    ((z_score_np m mean std).getD c []).all (fun v => !v.isFinite) = true := by
  induction c generalizing m mean std with
  | zero =>
    cases m with
    | nil => simp [z_score_np]
    | cons r m =>
      cases mean with
      | nil => simp [z_score_np]
      | cons mu mean =>
        cases std with
        | nil => exact absurd h one_ne_zero
        | cons s std =>
          have hs : s = 0 := by simpa using h
          subst hs
          have hstep : (z_score_np (r :: m) (mu :: mean) (0 :: std)).getD 0 []
              = r.map (fun x => npDiv (x - mu) 0) := rfl
          rw [hstep, List.all_eq_true]
          intro v hv
          rw [List.mem_map] at hv
          obtain ⟨x, _, rfl⟩ := hv
          simp [npDiv_zero_not_finite]
  | succ c ih =>
    cases m with
    | nil => simp [z_score_np]
    | cons r m =>
      cases mean with
      | nil => simp [z_score_np]
      | cons mu mean =>
        cases std with
        | nil => exact absurd h one_ne_zero
        | cons s std =>
          have hstep : (z_score_np (r :: m) (mu :: mean) (s :: std)).getD (c + 1) []
              = (z_score_np m mean std).getD c [] := rfl
          rw [hstep]
          exact ih m mean std (by simpa using h)

/-- C4 amended witness: channel 0 of `z_score_np [[1]] [0] [0]` holds only
non-finite values. -/
theorem z_score_zero_std_not_finite_witness :
    (([0] : List ℚ).getD 0 1 = 0)
    ∧ ((z_score_np [[1]] [0] [0]).getD 0 []).all (fun v => !v.isFinite) = true := by
  have h : (([0] : List ℚ)).getD 0 1 = 0 := rfl
  exact ⟨h, z_score_zero_std_not_finite [[1]] [0] [0] 0 h⟩

lemma get_stats_error_of_any_none (results : List (Option (List (List ℚ))))
    (h : results.any Option.isNone = true) :
    exceptIsOk (get_stats results) = false := by
  have hne : results.isEmpty = false := by
    cases results with
    | nil => simp at h
    | cons a l => rfl
  simp [get_stats, npConcat, hne, h, exceptIsOk]

/-- C2 counterexample: with one successfully loaded matrix [[0, 2]] and one
failed load (the None sentinel), the source `get_stats` raises
(np.concatenate rejects the zero-dimensional None) while the spec`s
discard-failures version returns the statistics of the survivor. -/
theorem get_stats_discard_counterexample :
    get_stats [some [[0, 2]], none] = .error ConcatError.zeroDimensional
    ∧ get_stats_spec [some [[0, 2]], none] = .ok ([1], [1]) := by
  constructor
  · norm_num [get_stats, npConcat]
  · norm_num [get_stats_spec, get_stats, npConcat, meanRow, varRow,
      List.range_succ]

/-- C2 amended: `get_stats` does not discard failed recordings; it appends
every load result, so whenever any recording failed to load the subsequent
`np.concatenate` raises and no statistics are returned. -/
theorem get_stats_fails_on_failed_load (results : List (Option (List (List ℚ))))
    (h : results.any Option.isNone = true) :
    exceptIsOk (get_stats results) = false :=
  get_stats_error_of_any_none results h

/-- C2 amended witness: the list [some [[0, 2]], none] contains a failed
load and `get_stats` on it is not a success. -/
theorem get_stats_fails_on_failed_load_witness :
    ([some [[0, 2]], none] : List (Option (List (List ℚ)))).any Option.isNone = true
    ∧ exceptIsOk (get_stats [some [[0, 2]], none]) = false := by
  have h : ([some [[0, 2]], none] : List (Option (List (List ℚ)))).any
      Option.isNone = true := by simp
  exact ⟨h, get_stats_fails_on_failed_load _ h⟩

/-- C6: on an empty file list, or when every recording failed to load,
`get_stats` fails (np.concatenate raises the error the spec calls
`InsufficientData`) instead of returning degenerate statistics. -/
theorem get_stats_fails_on_insufficient_data
    (results : List (Option (List (List ℚ))))
    (h : results.isEmpty = true ∨ results.all Option.isNone = true) :
    exceptIsOk (get_stats results) = false := by
  cases results with
  | nil => simp [get_stats, npConcat, exceptIsOk]
  | cons a l =>
    rcases h with h | h
    · simp at h
    · apply get_stats_error_of_any_none
      rw [List.all_eq_true] at h
      rw [List.any_eq_true]
      exact ⟨a, List.mem_cons_self a l, h a (List.mem_cons_self a l)⟩

/-- C6 witness: a list of two failed loads makes `get_stats` fail. -/
theorem get_stats_fails_on_insufficient_data_witness :
    (([none, none] : List (Option (List (List ℚ)))).isEmpty = true
      ∨ ([none, none] : List (Option (List (List ℚ)))).all Option.isNone = true)
    ∧ exceptIsOk (get_stats [none, none]) = false := by
  have h : (([none, none] : List (Option (List (List ℚ)))).isEmpty = true
      ∨ ([none, none] : List (Option (List (List ℚ)))).all Option.isNone = true) :=
    Or.inr (by simp)
  exact ⟨h, get_stats_fails_on_insufficient_data _ h⟩

/-- C5 counterexample: a file whose channels are Fz then Cz (plus one
non-canonical channel) loads to the two channels in FILE order, not to the
32 canonical channels in canonical order. -/
theorem dropChannels_not_canonical_counterexample :
    (dropChannels [("Fz", [1]), ("Cz", [2]), ("XYZ", [3])]).map Prod.fst
      = ["Fz", "Cz"]
    ∧ ["Fz", "Cz"] ≠ CH_NAMES := by
  constructor
  · decide
  · decide

/-- C5 amended: loading drops exactly the channels not in the canonical set
and keeps the surviving channels in the order they have in the file; the
canonical count and ordering are obtained only when the file already lists
its canonical channels that way. -/
theorem dropChannels_keeps_file_order (file : FileData) :
    (dropChannels file).map Prod.fst
      = (file.map Prod.fst).filter (fun n => decide (n ∈ CH_NAMES)) := by
  rw [List.filter_map]
  rfl

/-- C7: when `interpolate` fails with `ResidualNan` on a file, the loader
`open_and_interpolate` returns the None sentinel for it, and the per-file
loop of `main` skips that file and still processes every other file. -/
theorem loader_sentinel_and_skip (filt : List (List ℚ) → List (List ℚ))
    (mean std : List ℚ) (pre post : List FileData) (bad : FileData)
    (h : interpolate ((dropChannels bad).map Prod.snd)
      = .error ResidualNan.residualNan) :
    open_and_interpolate filt bad = none
    ∧ processFiles filt mean std (pre ++ bad :: post)
        = processFiles filt mean std pre ++ processFiles filt mean std post := by
  have hbad : open_and_interpolate filt bad = none := by
    simp [open_and_interpolate, h]
  refine ⟨hbad, ?_⟩
  simp [processFiles, List.filterMap_append, List.filterMap_cons, hbad]

/-- C7 witness: a file whose single canonical channel is entirely
out-of-threshold is skipped, while the files before and after it are
processed. -/
theorem loader_sentinel_and_skip_witness :
    interpolate ((dropChannels [("Cz", [500, 500])]).map Prod.snd)
      = .error ResidualNan.residualNan
    ∧ (open_and_interpolate id [("Cz", [500, 500])] = none
      ∧ processFiles id [0] [1]
            ([[("Cz", [1, 2])]] ++ [("Cz", [500, 500])] :: [[("Cz", [3, 4])]])
          = processFiles id [0] [1] [[("Cz", [1, 2])]]
            ++ processFiles id [0] [1] [[("Cz", [3, 4])]]) := by
  have h : interpolate ((dropChannels [("Cz", [500, 500])]).map Prod.snd)
      = .error ResidualNan.residualNan := by
    norm_num [dropChannels, CH_NAMES, interpolate, interpolateRow, maskRow,
      nanPositions, repairAt, avg2, threshold, List.range_succ]
  exact ⟨h, loader_sentinel_and_skip id [0] [1] _ _ _ h⟩

/-- C1: evaluating `interpolate` at the claimed scenario — a spike of 500.0
at time index 5 on channel 0 with neighbor values 1.0 (index 4) and 3.0
(index 6).  Because line 49 of the source reads index `timepoint-1` for
`after` as well, the repaired value is (1 + 1) / 2 = 1.0, not the claimed
mean 2.0 of the true before/after neighbors. -/
theorem interpolate_spike_eval :
    interpolate [[1, 1, 1, 1, 1, 500, 3, 3]] = .ok [[1, 1, 1, 1, 1, 1, 3, 3]]
    ∧ interpolate [[1, 1, 1, 1, 1, 500, 3, 3]] ≠ .ok [[1, 1, 1, 1, 1, 2, 3, 3]] := by
  have h : interpolate [[1, 1, 1, 1, 1, 500, 3, 3]]
      = .ok [[1, 1, 1, 1, 1, 1, 3, 3]] := by
    norm_num [interpolate, interpolateRow, maskRow, nanPositions, repairAt,
      avg2, unmaskRow, threshold, List.range_succ]
  refine ⟨h, ?_⟩
  rw [h]
  intro hc
  rw [Except.ok.injEq] at hc
  norm_num at hc

/-- C3: evaluating `interpolate` on a run of two consecutive out-of-threshold
samples — [[1, 500, 500, 3]].  Because the repair loop runs in place over the
NaN indices in ascending order and uses index `t-1` for both neighbors, the
first masked sample is repaired from its already-valid left neighbor and the
second from the freshly repaired first, so the call SUCCEEDS with
[[1, 1, 1, 3]] instead of raising `ResidualNan`. -/
theorem interpolate_consecutive_run_eval :
    interpolate [[1, 500, 500, 3]] = .ok [[1, 1, 1, 3]]
    ∧ interpolate [[1, 500, 500, 3]] ≠ .error ResidualNan.residualNan := by
  have h : interpolate [[1, 500, 500, 3]] = .ok [[1, 1, 1, 3]] := by
    norm_num [interpolate, interpolateRow, maskRow, nanPositions, repairAt,
      avg2, unmaskRow, threshold, List.range_succ]
  refine ⟨h, ?_⟩
  rw [h]
  intro hc
  exact Except.noConfusion hc

lemma nanPositions_cons_none (xs : List ℚ) :
    nanPositions (none :: xs.map some) = [0] := by
  simp only [nanPositions, List.length_cons, List.length_map]
  rw [List.range_succ_eq_map, List.filter_cons]
  rw [if_pos (by simp)]
  have hnil : ((List.range xs.length).map Nat.succ).filter
      (fun t => ((none :: xs.map some : List (Option ℚ)).getD t (some 0)).isNone)
      = [] := by
    rw [List.filter_eq_nil_iff]
    intro t ht
    obtain ⟨s, hs, rfl⟩ := List.mem_map.mp ht
    have hs' : s < xs.length := List.mem_range.mp hs
    simp [Nat.succ_eq_add_one, List.getD_cons_succ, getD_map_some _ _ _ hs']
  rw [hnil]

lemma getD_length_pred (l : List ℚ) (h : l ≠ []) :
    l.getD (l.length - 1) 0 = l.getLastD 0 := by
  induction l with
  | nil => exact absurd rfl h
  | cons a l ih =>
    cases l with
    | nil => rfl
    | cons b t =>
      have h1 : (a :: b :: t : List ℚ).length - 1 = (b :: t : List ℚ).length := rfl
      rw [h1]
      have h2 : (a :: b :: t : List ℚ).getD (b :: t : List ℚ).length 0
          = (b :: t : List ℚ).getD ((b :: t : List ℚ).length - 1) 0 := by
        simp [List.getD_cons_succ]
      rw [h2, ih (List.cons_ne_nil b t)]
      rw [List.getLastD_eq_getLast?, List.getLastD_eq_getLast?,
        List.getLast?_cons_cons]

lemma interpolateRow_spike_zero (x : ℚ) (rest : List ℚ) (hne : rest ≠ [])
    (hx : threshold < |x|)
    (hrest : rest.all (fun y => decide (|y| ≤ threshold)) = true) :
    interpolateRow (x :: rest) = some (rest.getLastD 0) :: rest.map some := by
  have hmask : maskRow (x :: rest) = none :: rest.map some := by
    have hstep : maskRow (x :: rest)
        = (if threshold < |x| then none else some x) :: maskRow rest := rfl
    rw [hstep, if_pos hx, maskRow_of_within rest hrest]
  simp only [interpolateRow]
  rw [hmask, nanPositions_cons_none, List.foldl_cons, List.foldl_nil]
  cases rest with
  | nil => exact absurd rfl hne
  | cons y ys =>
    simp only [repairAt]
    have hlen : (none :: (y :: ys).map some : List (Option ℚ)).length
        = ys.length + 2 := by simp
    rw [hlen]
    have hidx : (0 + (ys.length + 2) - 1) % (ys.length + 2) = ys.length + 1 := by
      have h0 : 0 + (ys.length + 2) - 1 = ys.length + 1 := by omega
      rw [h0, Nat.mod_eq_of_lt (by omega)]
    rw [hidx]
    have hprev : ((none :: (y :: ys).map some : List (Option ℚ)).getD
        (ys.length + 1) none) = some ((y :: ys).getD ys.length 0) := by
      rw [List.getD_cons_succ]
      exact getD_map_some _ _ _ (by simp)
    rw [hprev]
    have havg : avg2 (some ((y :: ys).getD ys.length 0))
        (some ((y :: ys).getD ys.length 0))
        = some ((y :: ys).getD ys.length 0) := by
      simp [avg2, add_self_div_two]
    rw [havg]
    have hset : ((none :: (y :: ys).map some : List (Option ℚ)).set 0
        (some ((y :: ys).getD ys.length 0)))
        = some ((y :: ys).getD ys.length 0) :: (y :: ys).map some := rfl
    rw [hset]
    have hlast : ((y :: ys) : List ℚ).getD ys.length 0 = (y :: ys).getLastD 0 := by
      have hp := getD_length_pred (y :: ys) (List.cons_ne_nil y ys)
      simpa using hp
    rw [hlast]

/-- C10: for a matrix whose channel starts with an out-of-threshold sample at
time index 0 (all later samples valid), the repair reads the "before"
neighbor at Python index -1, which wraps to the channel LAST sample: the
repaired value at index 0 equals the last sample of the same channel, and no
out-of-bounds error occurs. -/
theorem interpolate_wraps_at_index_zero (x : ℚ) (rest : List ℚ)
    (hne : rest ≠ []) (hx : threshold < |x|)
    (hrest : rest.all (fun y => decide (|y| ≤ threshold)) = true) :
    interpolate [x :: rest] = .ok [rest.getLastD 0 :: rest] := by
  have hrow := interpolateRow_spike_zero x rest hne hx hrest
  simp only [interpolate, List.map_cons, List.map_nil, hrow]
  rw [if_pos]
  · have h1 : unmaskRow (some (rest.getLastD 0) :: rest.map some)
        = rest.getLastD 0 :: unmaskRow (rest.map some) := rfl
    rw [h1, unmaskRow_map_some]
  · simp

/-- C10 witness: [[500, 1, 2]] is repaired at index 0 with the wrap-around
before-neighbor, the channel last sample 2, yielding [[2, 1, 2]]. -/
theorem interpolate_wraps_at_index_zero_witness :
    (([1, 2] : List ℚ) ≠ [] ∧ threshold < |(500 : ℚ)|
      ∧ ([1, 2] : List ℚ).all (fun y => decide (|y| ≤ threshold)) = true)
    ∧ interpolate [[500, 1, 2]] = .ok [[2, 1, 2]] := by
  have h1 : ([1, 2] : List ℚ) ≠ [] := by simp
  have h2 : threshold < |(500 : ℚ)| := by norm_num [threshold]
  have h3 : ([1, 2] : List ℚ).all (fun y => decide (|y| ≤ threshold)) = true := by
    norm_num [threshold]
  exact ⟨⟨h1, h2, h3⟩, interpolate_wraps_at_index_zero 500 [1, 2] h1 h2 h3⟩
